import Mathlib

/-!
Shallow embedding of the MultiHiertt conversion scripts:

  * convert_tables_to_xlsx.py
  * convert_tables_to_xlsx_with_desc.py
  * generate_train_grp.py
  * renumber_test_uids.py

Python dictionaries are modelled as association lists with the
update-in-place-or-append semantics of `d[k] = v`; the filesystem and the
pandas `read_html` parser appear as explicit function parameters; machine
strings are Lean `String`s (ASCII whitespace/digits stand in for Python's
Unicode classes, which the dataset never exercises).
-/

namespace MultiHiertt

/-- Python `str.isspace`-style whitespace as used by `str.strip`, `str.split`
and the regex class `\s` (ASCII fragment). -/
def isPySpace (c : Char) : Bool :=
  c = ' ' || c = '\t' || c = '\n' || c = '\r' || c = '\x0b' || c = '\x0c'

/-- Python `str.strip()`: drop leading and trailing whitespace. -/
def pyStrip (s : String) : String :=
  String.mk (((s.data.dropWhile isPySpace).reverse.dropWhile isPySpace).reverse)

/-- Helper for `pySplitWs`: accumulate the current word (reversed) while
scanning the character list. -/
def wsWords : List Char → List Char → List String
  | [], acc => if acc.isEmpty then [] else [String.mk acc.reverse]
  | c :: cs, acc =>
    if isPySpace c then
      if acc.isEmpty then wsWords cs [] else String.mk acc.reverse :: wsWords cs []
    else wsWords cs (c :: acc)

/-- Python `str.split()` with no argument: split on runs of whitespace,
discarding empty pieces. -/
def pySplitWs (s : String) : List String :=
  wsWords s.data []

/-- Prefix test on character lists. -/
def charsPrefix : List Char → List Char → Bool
  | [], _ => true
  | _ :: _, [] => false
  | a :: as, b :: bs => a == b && charsPrefix as bs

/-- Python `s.startswith(p)`. -/
def pyStartsWith (s p : String) : Bool :=
  charsPrefix p.data s.data

/-- Python `s.lower()` (ASCII fragment, like the rest of the character
handling here). -/
def pyToLower (s : String) : String :=
  String.mk (s.data.map Char.toLower)

/-- Character-list infix test: does `sub` occur contiguously in the list? -/
def listInfix (sub : List Char) : List Char → Bool
  | [] => sub.isEmpty
  | c :: cs => charsPrefix sub (c :: cs) || listInfix sub cs

/-- Python substring test `sub in s`. -/
def strContains (s sub : String) : Bool :=
  listInfix sub.data s.data

/-- Python dict assignment `d[k] = v` on an association list: overwrite the
existing entry in place, or append a new one at the end. -/
def dictInsert {α β : Type} [DecidableEq α] (d : List (α × β)) (k : α) (v : β) :
    List (α × β) :=
  if d.any (fun p => p.1 = k) then
    d.map (fun p => if p.1 = k then (k, v) else p)
  else
    d ++ [(k, v)]

/-- Python dict read `d.get(k)` on an association list. -/
def dictLookup {α β : Type} [DecidableEq α] (d : List (α × β)) (k : α) : Option β :=
  (d.find? (fun p => decide (p.1 = k))).map (fun p => p.2)

/-- Value of a digit string, as Python `int` reads `m.group(1)`. -/
def digitsToNat (ds : List Char) : Nat :=
  ds.foldl (fun a c => 10 * a + (c.toNat - '0'.toNat)) 0

/-- Match of `TABLE_MARKER_RE` = `##\s*Table\s*(\d+)\s*##` anchored at the
head of the character list, returning the captured index.  The character
classes `#`, `\s`, `\d` and the literal `Table` are pairwise disjoint at
every joint, so greedy maximal munch is the regex's unique match here. -/
def matchMarkerAt (cs : List Char) : Option Nat :=
  match cs with
  | '#' :: '#' :: r1 =>
    let r2 := r1.dropWhile isPySpace
    if charsPrefix ("Table".data) r2 then
      let r3 := (r2.drop 5).dropWhile isPySpace
      let ds := r3.takeWhile Char.isDigit
      if ds.isEmpty then none
      else
        match (r3.drop ds.length).dropWhile isPySpace with
        | '#' :: '#' :: _ => some (digitsToNat ds)
        | _ => none
    else none
  | _ => none

/-- Helper for `searchMarker`: try the anchored match at every suffix, in
order, as `re.search` scans starting positions left to right. -/
def findMarker : List Char → Option Nat
  | [] => none
  | c :: cs =>
    match matchMarkerAt (c :: cs) with
    | some k => some k
    | none => findMarker cs

/-- Embedding of `TABLE_MARKER_RE.search(para)` followed by `int(m.group(1))`:
the table index captured by the leftmost marker match, if any. -/
def searchMarker (para : String) : Option Nat :=
  findMarker para.data

/-- Python `enumerate(xs, start=n)`. -/
def pyEnum {α : Type} (n : Nat) : List α → List (Nat × α)
  | [] => []
  | a :: as => (n, a) :: pyEnum (n + 1) as

/-- First loop of `extract_descriptions`, generalised over the position of
the first paragraph: the `(table_idx, paragraph_pos)` pairs for paragraphs
containing a table marker, in scan order. -/
def markerStartsFrom (n : Nat) : List String → List (Nat × Nat)
  | [] => []
  | para :: rest =>
    match searchMarker para with
    | some k => (k, n) :: markerStartsFrom (n + 1) rest
    | none => markerStartsFrom (n + 1) rest

/-- The `starts` list built by the first loop of `extract_descriptions`. -/
def markerStarts (paragraphs : List String) : List (Nat × Nat) :=
  markerStartsFrom 0 paragraphs

/-- Second loop of `extract_descriptions`: for each start, slice the
paragraphs up to the next start (or the end of the list), join with
newlines, strip, and store under the table index. -/
def buildDescs (paragraphs : List String) :
    List (Nat × Nat) → List (Nat × String) → List (Nat × String)
  | [], d => d
  | (tableIdx, startPos) :: rest, d =>
    let endPos := match rest.head? with
      | some e => e.2
      | none => paragraphs.length
    let chunk := (paragraphs.take endPos).drop (startPos + 1)
    let text := pyStrip (String.intercalate "\n" chunk)
    buildDescs paragraphs rest (dictInsert d tableIdx text)

/-- Embedding of `extract_descriptions` from
convert_tables_to_xlsx_with_desc.py: mapping from table index to the
description text between its marker and the next marker. -/
def extract_descriptions (paragraphs : List String) : List (Nat × String) :=
  buildDescs paragraphs (markerStarts paragraphs) []

/-- Excel-hostile character class `[\x00-\x08\x0b-\x0c\x0e-\x1f]`
(`INVALID_XL_CHARS`). -/
def isInvalidXlChar (c : Char) : Bool :=
  c.toNat ≤ 0x08 || c.toNat = 0x0b || c.toNat = 0x0c ||
    (0x0e ≤ c.toNat && c.toNat ≤ 0x1f)

/-- Embedding of `sanitize_for_excel`: drop characters Excel rejects. -/
def sanitize_for_excel (s : String) : String :=
  String.mk (s.data.filter (fun c => !isInvalidXlChar c))

/-- Exceptions a `pd.read_html` call can raise, as far as the scripts
distinguish them: `ValueError` (the empty-parse case) versus anything else. -/
inductive PyExc where
  | valueError
  | otherError
  deriving DecidableEq

/-- A parsed dataframe: rows of cells.  The scripts never inspect its
contents, only how many dataframes a parse yields. -/
abbrev Df := List (List String)

/-- One spreadsheet file written by `export_tables` of
convert_tables_to_xlsx.py: the example folder (uid), the table index, and
the sub-index when one HTML blob parses to several dataframes. -/
structure XlsxFile where
  uid : String
  idx : Nat
  sub : Option Nat
  deriving DecidableEq

/-- The file name the scripts build from `suffix`:
`table{idx}.xlsx` or `table{idx}_{sub}.xlsx`. -/
def xlsxName (f : XlsxFile) : String :=
  "table" ++
    (match f.sub with
      | none => toString f.idx
      | some s => toString f.idx ++ "_" ++ toString s) ++ ".xlsx"

/-- Render the path of a written file exactly as the scripts place it:
`<out>/<uid>/` followed by the file name. -/
def xlsxPath (out : String) (f : XlsxFile) : String :=
  out ++ "/" ++ f.uid ++ "/" ++ xlsxName f

/-- Files the inner `for sub_idx, df in enumerate(dfs)` loop writes for one
table index: `table{idx}` when the parse yields one dataframe, else
`table{idx}_{sub}` per sub-dataframe. -/
def dfsFiles (uid : String) (idx : Nat) (dfs : List Df) : List XlsxFile :=
  (pyEnum 0 dfs).map (fun p =>
    if dfs.length = 1 then ⟨uid, idx, none⟩ else ⟨uid, idx, some p.1⟩)

/-- Outcome of an `export_tables` run: files written so far, and the
uncaught exception that aborted it, if any. -/
structure ExportResult where
  written : List XlsxFile
  exc : Option PyExc
  deriving DecidableEq

/-- The `for idx, html in enumerate(tables)` loop of `export_tables`
(convert_tables_to_xlsx.py), with `pd.read_html` as the parameter `rd`:
`ValueError` is caught and the table skipped; any other exception
propagates, aborting the loop with the files already written. -/
def exportLoop (uid : String) (rd : String → Except PyExc (List Df)) :
    List (Nat × String) → ExportResult
  | [] => ⟨[], none⟩
  | (idx, html) :: rest =>
    match rd html with
    | .error .valueError => exportLoop uid rd rest
    | .error e => ⟨[], some e⟩
    | .ok dfs =>
      let r := exportLoop uid rd rest
      ⟨dfsFiles uid idx dfs ++ r.written, r.exc⟩

/-- Embedding of `export_tables` from convert_tables_to_xlsx.py. -/
def export_tables (uid : String) (tables : List String)
    (rd : String → Except PyExc (List Df)) : ExportResult :=
  exportLoop uid rd (pyEnum 0 tables)

/-- One spreadsheet file written by the with-descriptions variant: same
name components, plus the sanitized description text stored in its second
sheet. -/
structure XlsxFileD where
  uid : String
  idx : Nat
  sub : Option Nat
  desc : String
  deriving DecidableEq

/-- Forget the description sheet: the name components of a
with-descriptions file. -/
def dropDesc (f : XlsxFileD) : XlsxFile :=
  ⟨f.uid, f.idx, f.sub⟩

/-- Outcome of an `export_tables` run of the with-descriptions script. -/
structure ExportResultD where
  written : List XlsxFileD
  exc : Option PyExc
  deriving DecidableEq

/-- Files the inner loop of the with-descriptions script writes for one
table index, each carrying `sanitize_for_excel(desc_map.get(idx, ""))`. -/
def dfsFilesD (uid : String) (idx : Nat) (dfs : List Df) (desc : String) :
    List XlsxFileD :=
  (pyEnum 0 dfs).map (fun p =>
    if dfs.length = 1 then ⟨uid, idx, none, desc⟩ else ⟨uid, idx, some p.1, desc⟩)

/-- The table loop of `export_tables` in
convert_tables_to_xlsx_with_desc.py, with the description map already
extracted. -/
def exportLoopD (uid : String) (rd : String → Except PyExc (List Df))
    (descMap : List (Nat × String)) : List (Nat × String) → ExportResultD
  | [] => ⟨[], none⟩
  | (idx, html) :: rest =>
    match rd html with
    | .error .valueError => exportLoopD uid rd descMap rest
    | .error e => ⟨[], some e⟩
    | .ok dfs =>
      let r := exportLoopD uid rd descMap rest
      let desc := sanitize_for_excel ((dictLookup descMap idx).getD "")
      ⟨dfsFilesD uid idx dfs desc ++ r.written, r.exc⟩

/-- Embedding of `export_tables` from convert_tables_to_xlsx_with_desc.py. -/
def export_tables_desc (uid : String) (tables paragraphs : List String)
    (rd : String → Except PyExc (List Df)) : ExportResultD :=
  exportLoopD uid rd (extract_descriptions paragraphs) (pyEnum 0 tables)

/-- A JSON scalar a `uid` field can hold; `str()` renders it. -/
inductive PyScalar where
  | s (v : String)
  | i (v : Int)
  deriving DecidableEq

/-- Python `str()` on a uid scalar. -/
def pyStr : PyScalar → String
  | .s v => v
  | .i v => toString v

/-- The `qa` sub-object of an example, with each field optional as in the
JSON: `None` models both an absent key and a JSON `null`. -/
structure QaRec where
  question : Option String
  answer : Option String
  question_type : Option String
  program : Option String
  deriving DecidableEq

/-- The `qa` fields `build_entry` reads from an example, each optional. -/
structure TrainExample where
  uid : Option PyScalar
  qa : Option QaRec
  paragraphs : Option (List String)
  deriving DecidableEq

/-- The empty dict default of `example.get("qa", {})`. -/
def emptyQa : QaRec := ⟨none, none, none, none⟩

/-- Python `x or default` for an optional string: `None` and `""` are
falsy. -/
def pyOrStr (x : Option String) (default : String) : String :=
  match x with
  | none => default
  | some v => if v = "" then default else v

/-- Sorted-string insertion for `gather_spreadsheets`' `sorted(...)`. -/
def insertSorted (x : String) : List String → List String
  | [] => [x]
  | y :: ys => if x ≤ y then x :: y :: ys else y :: insertSorted x ys

/-- Python `sorted` on strings (insertion sort; only the ordering of the
result matters to the scripts). -/
def pySorted : List String → List String
  | [] => []
  | x :: xs => insertSorted x (pySorted xs)

/-- Embedding of `gather_spreadsheets`: the filesystem is the parameter
`listing`, mapping a folder name under the base directory to the list of
its `*.xlsx` paths when the folder exists. -/
def gather_spreadsheets (listing : String → Option (List String)) (uid : String) :
    List String :=
  match listing ("Train_" ++ uid) with
  | none => []
  | some files => pySorted files

/-- The scan loop of `derive_title`, carrying `first_non_empty`.  On
exhausting the paragraphs it applies the function's two fallbacks. -/
def deriveLoop (question uid : String) : List String → String → String
  | [], firstNonEmpty =>
    if firstNonEmpty = "" then
      if question = "" then "Task " ++ uid else question
    else
      String.intercalate " " ((pySplitWs firstNonEmpty).take 15)
  | para :: rest, firstNonEmpty =>
    let text := pyStrip para
    if decide (text = "") || pyStartsWith text "##" then
      deriveLoop question uid rest firstNonEmpty
    else
      let fne := if firstNonEmpty = "" then text else firstNonEmpty
      let lower := pyToLower text
      if pyStartsWith lower "table " && !strContains lower "table of contents" then
        text
      else
        deriveLoop question uid rest fne

/-- Embedding of `derive_title` from generate_train_grp.py. -/
def derive_title (paragraphs : List String) (question uid : String) : String :=
  deriveLoop question uid paragraphs ""

/-- One feedback rule: `program_contains` substrings and a `feedback`
template, each optional as in the JSON. -/
structure Rule where
  program_contains : Option (List String)
  feedback : Option String
  deriving DecidableEq

/-- The rules file: its `question_type_rules` dict, keyed by question
type. -/
structure Rules where
  question_type_rules : Option (List (String × List Rule))
  deriving DecidableEq

/-- Does a rule match: `all(needle in program for needle in needles)` with
`needles = rule.get("program_contains", [])`. -/
def ruleMatches (program : String) (r : Rule) : Bool :=
  (r.program_contains.getD []).all (fun needle => strContains program needle)

/-- The `for rule in ordered_rules` loop of `generate_feedback`. -/
def feedbackLoop (program : String) : List Rule → String
  | [] => ""
  | r :: rest =>
    if ruleMatches program r then r.feedback.getD ""
    else feedbackLoop program rest

/-- Embedding of `generate_feedback` from generate_train_grp.py. -/
def generate_feedback (rules : Rules) (question_type program : String) : String :=
  let ruleSet := rules.question_type_rules.getD []
  let ordered := (dictLookup ruleSet question_type).getD [] ++
    (dictLookup ruleSet "default").getD []
  feedbackLoop program ordered

/-- A value of the GRP output dict: a string or a list of strings. -/
inductive GrpVal where
  | str (s : String)
  | strList (xs : List String)
  deriving DecidableEq

/-- Embedding of `build_entry` from generate_train_grp.py, producing the
output dict as the literal keyed list the Python dict literal builds. -/
def build_entry (listing : String → Option (List String)) (rules : Rules)
    (ex : TrainExample) : List (String × GrpVal) :=
  let uid := pyStrip (match ex.uid with
    | none => ""
    | some v => pyStr v)
  let qa := ex.qa.getD emptyQa
  let question := qa.question.getD ""
  let answer := qa.answer.getD ""
  let questionType := pyOrStr qa.question_type "default"
  let program := pyOrStr qa.program ""
  let paragraphs := ex.paragraphs.getD []
  let spreadsheets := gather_spreadsheets listing uid
  let title := derive_title paragraphs question uid
  [("task_id", .str ("Test " ++ uid)),
   ("title", .str title),
   ("spreadsheets", .strList spreadsheets),
   ("prompt", .str question),
   ("answer", .str answer),
   ("expected_output_file", .strList []),
   ("feedback", .str (generate_feedback rules questionType program))]

/-- The list comprehension of `main` in generate_train_grp.py:
`[build_entry(ex, base_dir, rules) for ex in examples]`. -/
def generate_train_grp (listing : String → Option (List String)) (rules : Rules)
    (examples : List TrainExample) : List (List (String × GrpVal)) :=
  examples.map (fun ex => build_entry listing rules ex)

/-- A JSON value, for the examples `renumber_uids` rewrites. -/
inductive PyVal where
  | str (s : String)
  | int (n : Int)
  | bool (b : Bool)
  | null
  | list (xs : List PyVal)
  | dict (fields : List (String × PyVal))

/-- The `for idx, example in enumerate(examples, start=1)` loop of
`renumber_uids`, generalised over the starting index. -/
def renumberFrom (n : Nat) : List (List (String × PyVal)) →
    List (List (String × PyVal))
  | [] => []
  | ex :: rest =>
    dictInsert ex "uid" (PyVal.str (toString n)) :: renumberFrom (n + 1) rest

/-- Embedding of `renumber_uids` from renumber_test_uids.py. -/
def renumber_uids (examples : List (List (String × PyVal))) :
    List (List (String × PyVal)) :=
  renumberFrom 1 examples

/-- Position of the next marker paragraph in scan order strictly after
position `p`, or the paragraph count when no marker follows: the end of a
description span in the specification's words. -/
def nextMarkerPos (paragraphs : List String) (p : Nat) : Nat :=
  match (markerStarts paragraphs).find? (fun e => decide (p < e.2)) with
  | some e => e.2
  | none => paragraphs.length

/-- Description that `extract_descriptions` finally stores for index `k`:
the chunk of the last start carrying `k`, scanning the starts back to
front.  Bridges the imperative dict loop and the specification. -/
def lastDesc (paragraphs : List String) : List (Nat × Nat) → Nat → Option String
  | [], _ => none
  | (tableIdx, startPos) :: rest, k =>
    let endPos := match rest.head? with
      | some e => e.2
      | none => paragraphs.length
    match lastDesc paragraphs rest k with
    | some t => some t
    | none =>
      if tableIdx = k then
        some (pyStrip (String.intercalate "\n"
          ((paragraphs.take endPos).drop (startPos + 1))))
      else none

/-- Sequential composition of two export runs: the second runs only when
the first did not abort. -/
def combineResults (a b : ExportResult) : ExportResult :=
  if a.exc.isSome then a else ⟨a.written ++ b.written, b.exc⟩

/-- A paragraph whose stripped text the `derive_title` scan would return
as a title: it starts (case-insensitively) with `table ` and does not
mention a table of contents. -/
def tableTitlePara (para : String) : Bool :=
  pyStartsWith (pyToLower (pyStrip para)) "table " &&
    !strContains (pyToLower (pyStrip para)) "table of contents"

/-- A paragraph eligible for `first_non_empty` in `derive_title`:
non-empty after stripping and not a `##` marker line. -/
def titleCandidatePara (para : String) : Bool :=
  !(decide (pyStrip para = "") || pyStartsWith (pyStrip para) "##")

theorem dictLookup_nil {α β : Type} [DecidableEq α] (k : α) :
    dictLookup ([] : List (α × β)) k = none := rfl

theorem dictLookup_cons {α β : Type} [DecidableEq α] (p : α × β)
    (d : List (α × β)) (k : α) :
    dictLookup (p :: d) k = if p.1 = k then some p.2 else dictLookup d k := by
  by_cases h : p.1 = k <;> simp [dictLookup, h]

theorem lookup_mapOverwrite_ne {α β : Type} [DecidableEq α] (d : List (α × β))
    (j k : α) (v : β) (hkj : k ≠ j) :
    dictLookup (d.map (fun p => if p.1 = j then (j, v) else p)) k
      = dictLookup d k := by
  induction d with
  | nil => rfl
  | cons p d ih =>
    by_cases hpj : p.1 = j
    · have hjk : ¬j = k := fun h => hkj h.symm
      have hpk : ¬p.1 = k := fun h => hkj ((h.symm.trans hpj))
      simp [List.map_cons, dictLookup_cons, hpj, hjk, hpk, ih]
    · simp [List.map_cons, dictLookup_cons, hpj, ih]

theorem lookup_mapOverwrite_self {α β : Type} [DecidableEq α] (d : List (α × β))
    (j : α) (v : β) (hany : d.any (fun p => decide (p.1 = j)) = true) :
    dictLookup (d.map (fun p => if p.1 = j then (j, v) else p)) j = some v := by
  induction d with
  | nil => simp at hany
  | cons p d ih =>
    by_cases hpj : p.1 = j
    · simp [List.map_cons, dictLookup_cons, hpj]
    · have hany' : d.any (fun p => decide (p.1 = j)) = true := by
        simpa [hpj] using hany
      simp [List.map_cons, dictLookup_cons, hpj, ih hany']

theorem lookup_none_of_not_any {α β : Type} [DecidableEq α] (d : List (α × β))
    (j : α) (hany : ¬d.any (fun p => decide (p.1 = j)) = true) :
    dictLookup d j = none := by
  induction d with
  | nil => rfl
  | cons p d ih =>
    have hpj : ¬p.1 = j := by
      intro h
      exact hany (by simp [List.any_cons, h])
    have hany' : ¬d.any (fun p => decide (p.1 = j)) = true := by
      intro h
      exact hany (by simp [List.any_cons, h])
    simp [dictLookup_cons, hpj, ih hany']

theorem dictLookup_append_single {α β : Type} [DecidableEq α]
    (d : List (α × β)) (j k : α) (v : β) :
    dictLookup (d ++ [(j, v)]) k
      = (dictLookup d k).or (if j = k then some v else none) := by
  unfold dictLookup
  rw [List.find?_append]
  by_cases hjk : j = k <;>
    cases h : List.find? (fun p => decide (p.1 = k)) d <;>
      simp [List.find?, hjk, h]

theorem dictLookup_dictInsert {α β : Type} [DecidableEq α] (d : List (α × β))
    (j k : α) (v : β) :
    dictLookup (dictInsert d j v) k = if k = j then some v else dictLookup d k := by
  unfold dictInsert
  by_cases hany : d.any (fun p => decide (p.1 = j)) = true
  · rw [if_pos hany]
    by_cases hkj : k = j
    · subst hkj
      simp [lookup_mapOverwrite_self d k v hany]
    · simp [lookup_mapOverwrite_ne d j k v hkj, hkj]
  · rw [if_neg hany, dictLookup_append_single]
    by_cases hkj : k = j
    · subst hkj
      simp [lookup_none_of_not_any d k hany]
    · have hjk : ¬j = k := fun h => hkj h.symm
      simp [hjk, hkj]

theorem dictInsert_keys {α β : Type} [DecidableEq α] (d : List (α × β))
    (k : α) (v : β) :
    (dictInsert d k v).map Prod.fst
      = if d.any (fun p => decide (p.1 = k)) then d.map Prod.fst
        else d.map Prod.fst ++ [k] := by
  unfold dictInsert
  by_cases hany : d.any (fun p => decide (p.1 = k))
  · rw [if_pos hany, if_pos hany, List.map_map]
    refine List.map_congr_left ?_
    intro p _
    by_cases hp : p.1 = k <;> simp [hp]
  · rw [if_neg hany, if_neg hany]
    simp

theorem renumberFrom_getElem? (exs : List (List (String × PyVal))) :
    ∀ n i, (renumberFrom n exs)[i]?
      = exs[i]?.map (fun d => dictInsert d "uid" (PyVal.str (toString (n + i)))) := by
  induction exs with
  | nil => intro n i; simp [renumberFrom]
  | cons ex rest ih =>
    intro n i
    cases i with
    | zero => simp [renumberFrom]
    | succ i =>
      simp only [renumberFrom, List.getElem?_cons_succ, ih (n + 1) i]
      have : n + 1 + i = n + (i + 1) := by omega
      rw [this]

/-- C6: `renumber_uids` keeps the list's length and order; the object at
1-based position `i` gets its `uid` key set to the decimal string of `i`
(overwriting any previous value, or appending the key when absent), and
every other key keeps its value; the key order of each object is
preserved, with `uid` appended at the end when it was missing. -/
theorem renumber_uids_spec (exs : List (List (String × PyVal))) :
    (renumber_uids exs).length = exs.length ∧
    ∀ i d, exs[i]? = some d →
      (renumber_uids exs)[i]?
          = some (dictInsert d "uid" (PyVal.str (toString (i + 1)))) ∧
      dictLookup (dictInsert d "uid" (PyVal.str (toString (i + 1)))) "uid"
          = some (PyVal.str (toString (i + 1))) ∧
      (∀ k, k ≠ "uid" →
        dictLookup (dictInsert d "uid" (PyVal.str (toString (i + 1)))) k
          = dictLookup d k) ∧
      (dictInsert d "uid" (PyVal.str (toString (i + 1)))).map Prod.fst
        = (if d.any (fun p => decide (p.1 = "uid")) then d.map Prod.fst
           else d.map Prod.fst ++ ["uid"]) := by
  constructor
  · have h : ∀ n (l : List (List (String × PyVal))),
        (renumberFrom n l).length = l.length := by
      intro n l
      induction l generalizing n with
      | nil => rfl
      | cons ex rest ih => simp [renumberFrom, ih]
    exact h 1 exs
  · intro i d hd
    refine ⟨?_, ?_, ?_, ?_⟩
    · rw [renumber_uids, renumberFrom_getElem? exs 1 i, hd]
      have h1 : 1 + i = i + 1 := by omega
      rw [h1]
      rfl
    · rw [dictLookup_dictInsert]; simp
    · intro k hk
      rw [dictLookup_dictInsert, if_neg hk]
    · exact dictInsert_keys d "uid" (PyVal.str (toString (i + 1)))

/-- Witness for C6 at a concrete two-object list: position 2's object has
its pre-existing uid overwritten by "2". -/
theorem renumber_uids_spec_witness :
    ([[("a", PyVal.str "x")], [("uid", PyVal.str "9"), ("b", PyVal.null)]] :
        List (List (String × PyVal)))[1]?
      = some [("uid", PyVal.str "9"), ("b", PyVal.null)] ∧
    (renumber_uids [[("a", PyVal.str "x")], [("uid", PyVal.str "9"), ("b", PyVal.null)]])[1]?
      = some (dictInsert [("uid", PyVal.str "9"), ("b", PyVal.null)] "uid"
          (PyVal.str (toString (1 + 1)))) ∧
    dictLookup (dictInsert [("uid", PyVal.str "9"), ("b", PyVal.null)] "uid"
        (PyVal.str (toString (1 + 1)))) "uid" = some (PyVal.str (toString (1 + 1))) :=
  ⟨rfl,
    ((renumber_uids_spec
        [[("a", PyVal.str "x")], [("uid", PyVal.str "9"), ("b", PyVal.null)]]).2 1
        [("uid", PyVal.str "9"), ("b", PyVal.null)] rfl).1,
    ((renumber_uids_spec
        [[("a", PyVal.str "x")], [("uid", PyVal.str "9"), ("b", PyVal.null)]]).2 1
        [("uid", PyVal.str "9"), ("b", PyVal.null)] rfl).2.1⟩

/-- C3: the GRP list has one entry per input example, the entry at
position `i` is built from the example at position `i`, and each entry
carries exactly the seven GRP keys in their literal order. -/
theorem generate_train_grp_spec (listing : String → Option (List String))
    (rules : Rules) (examples : List TrainExample) :
    (generate_train_grp listing rules examples).length = examples.length ∧
    (∀ i : Nat, (generate_train_grp listing rules examples)[i]?
        = examples[i]?.map (fun ex => build_entry listing rules ex)) ∧
    ∀ entry ∈ generate_train_grp listing rules examples,
      entry.map Prod.fst
        = ["task_id", "title", "spreadsheets", "prompt", "answer",
           "expected_output_file", "feedback"] := by
  refine ⟨by simp [generate_train_grp], ?_, ?_⟩
  · intro i
    simp [generate_train_grp]
  · intro entry hmem
    rcases List.mem_map.mp hmem with ⟨ex, _, rfl⟩
    rfl

/-- Witness for C3 on a one-example input with an empty filesystem and no
rules. -/
theorem generate_train_grp_spec_witness :
    (build_entry (fun _ => none) ⟨none⟩ ⟨none, none, none⟩).map Prod.fst
      = ["task_id", "title", "spreadsheets", "prompt", "answer",
         "expected_output_file", "feedback"] :=
  (generate_train_grp_spec (fun _ => none) ⟨none⟩ [⟨none, none, none⟩]).2.2
    (build_entry (fun _ => none) ⟨none⟩ ⟨none, none, none⟩)
    (by simp [generate_train_grp])

/-- C5: every entry `build_entry` produces is GRP-shaped: `task_id` is
`Test ` followed by the stringified, stripped uid, `expected_output_file`
is always the empty list, and `title` and `feedback` are always strings,
whatever fields the input example has. -/
theorem build_entry_grp_shape (listing : String → Option (List String))
    (rules : Rules) (ex : TrainExample) :
    dictLookup (build_entry listing rules ex) "task_id"
      = some (GrpVal.str ("Test " ++ pyStrip (match ex.uid with
          | none => ""
          | some v => pyStr v))) ∧
    dictLookup (build_entry listing rules ex) "expected_output_file"
      = some (GrpVal.strList []) ∧
    (∃ s, dictLookup (build_entry listing rules ex) "title" = some (GrpVal.str s)) ∧
    (∃ s, dictLookup (build_entry listing rules ex) "feedback" = some (GrpVal.str s)) := by
  refine ⟨rfl, rfl, ⟨_, rfl⟩, ⟨_, rfl⟩⟩

theorem feedbackLoop_eq_find (program : String) (l : List Rule) :
    feedbackLoop program l
      = match l.find? (ruleMatches program) with
        | some r => r.feedback.getD ""
        | none => "" := by
  induction l with
  | nil => rfl
  | cons r rest ih =>
    by_cases h : ruleMatches program r = true
    · simp [feedbackLoop, h]
    · simp [feedbackLoop, h, ih]

/-- C8: `generate_feedback` scans the rules of the question type followed
by the default rules and returns the feedback of the first rule whose
`program_contains` substrings all occur in the program; a rule with an
empty or missing list matches everything; no match yields the empty
string. -/
theorem generate_feedback_spec (rules : Rules) (question_type program : String) :
    generate_feedback rules question_type program
      = (match ((dictLookup (rules.question_type_rules.getD []) question_type).getD []
            ++ (dictLookup (rules.question_type_rules.getD []) "default").getD []).find?
              (ruleMatches program) with
         | some r => r.feedback.getD ""
         | none => "") ∧
    (∀ r : Rule, r.program_contains = none ∨ r.program_contains = some [] →
      ruleMatches program r = true) ∧
    (∀ r : Rule, ruleMatches program r = true ↔
      ∀ needle ∈ r.program_contains.getD [], strContains program needle = true) := by
  refine ⟨?_, ?_, ?_⟩
  · exact feedbackLoop_eq_find program _
  · rintro r (h | h) <;> simp [ruleMatches, h]
  · intro r
    simp [ruleMatches, List.all_eq_true]

/-- Witness for C8: a question-type rule with no `program_contains` key
matches any program and its feedback is returned. -/
theorem generate_feedback_spec_witness :
    ruleMatches "add(1,2)" ⟨none, some "use subtraction"⟩ = true ∧
    generate_feedback ⟨some [("arithmetic", [⟨none, some "use subtraction"⟩])]⟩
      "arithmetic" "add(1,2)" = "use subtraction" :=
  ⟨(generate_feedback_spec ⟨some [("arithmetic", [⟨none, some "use subtraction"⟩])]⟩
      "arithmetic" "add(1,2)").2.1 ⟨none, some "use subtraction"⟩ (Or.inl rfl),
    rfl⟩

/-- C9: every transformation is a pure function of its inputs — two runs
on equal inputs agree, and `build_entry` depends on the filesystem only
through the directory listing it is given. -/
theorem transformations_deterministic :
    (∀ ps₁ ps₂ : List String, ps₁ = ps₂ →
      extract_descriptions ps₁ = extract_descriptions ps₂) ∧
    (∀ (ps₁ ps₂ : List String) (q₁ q₂ u₁ u₂ : String),
      ps₁ = ps₂ → q₁ = q₂ → u₁ = u₂ →
      derive_title ps₁ q₁ u₁ = derive_title ps₂ q₂ u₂) ∧
    (∀ (r₁ r₂ : Rules) (qt₁ qt₂ p₁ p₂ : String), r₁ = r₂ → qt₁ = qt₂ → p₁ = p₂ →
      generate_feedback r₁ qt₁ p₁ = generate_feedback r₂ qt₂ p₂) ∧
    (∀ exs₁ exs₂ : List (List (String × PyVal)), exs₁ = exs₂ →
      renumber_uids exs₁ = renumber_uids exs₂) ∧
    (∀ (listing₁ listing₂ : String → Option (List String)) (rules : Rules)
        (ex : TrainExample), (∀ folder, listing₁ folder = listing₂ folder) →
      build_entry listing₁ rules ex = build_entry listing₂ rules ex) := by
  refine ⟨?_, ?_, ?_, ?_, ?_⟩
  · intro _ _ h; rw [h]
  · intro _ _ _ _ _ _ h1 h2 h3; rw [h1, h2, h3]
  · intro _ _ _ _ _ _ h1 h2 h3; rw [h1, h2, h3]
  · intro _ _ h; rw [h]
  · intro l1 l2 rules ex h
    rw [funext h]

/-- Witness for C9: two identical runs on a concrete paragraph list and a
concrete pair of listings that agree pointwise. -/
theorem transformations_deterministic_witness :
    extract_descriptions ["## Table 0 ##", "x"] = extract_descriptions ["## Table 0 ##", "x"] ∧
    build_entry (fun f => if f = "Train_1" then some ["a.xlsx"] else none) ⟨none⟩
        ⟨some (PyScalar.s "1"), none, none⟩
      = build_entry (fun f => if f = "Train_1" then some ["a.xlsx"] else none) ⟨none⟩
        ⟨some (PyScalar.s "1"), none, none⟩ :=
  ⟨transformations_deterministic.1 ["## Table 0 ##", "x"] ["## Table 0 ##", "x"] rfl,
    transformations_deterministic.2.2.2.2
      (fun f => if f = "Train_1" then some ["a.xlsx"] else none)
      (fun f => if f = "Train_1" then some ["a.xlsx"] else none) ⟨none⟩
      ⟨some (PyScalar.s "1"), none, none⟩ (fun _ => rfl)⟩

theorem dictInsert_length_le {α β : Type} [DecidableEq α] (d : List (α × β))
    (k : α) (v : β) : (dictInsert d k v).length ≤ d.length + 1 := by
  unfold dictInsert
  by_cases hany : d.any (fun p => decide (p.1 = k)) = true <;> simp [hany]

theorem buildDescs_length_le (ps : List String) :
    ∀ (starts : List (Nat × Nat)) (d : List (Nat × String)),
      (buildDescs ps starts d).length ≤ d.length + starts.length := by
  intro starts
  induction starts with
  | nil => intro d; simp [buildDescs]
  | cons e rest ih =>
    intro d
    obtain ⟨tableIdx, startPos⟩ := e
    have h1 := ih (dictInsert d tableIdx
      (pyStrip (String.intercalate "\n"
        ((ps.take (match rest.head? with
          | some e => e.2
          | none => ps.length)).drop (startPos + 1)))))
    have h2 := dictInsert_length_le d tableIdx
      (pyStrip (String.intercalate "\n"
        ((ps.take (match rest.head? with
          | some e => e.2
          | none => ps.length)).drop (startPos + 1))))
    simp only [buildDescs, List.length_cons]
    omega

theorem markerStartsFrom_length_le (ps : List String) :
    ∀ n, (markerStartsFrom n ps).length ≤ ps.length := by
  induction ps with
  | nil => intro n; simp [markerStartsFrom]
  | cons para rest ih =>
    intro n
    simp only [markerStartsFrom]
    cases searchMarker para with
    | some k => simpa using ih (n + 1)
    | none =>
      have := ih (n + 1)
      simp
      omega

theorem renumberFrom_length (exs : List (List (String × PyVal))) :
    ∀ n, (renumberFrom n exs).length = exs.length := by
  induction exs with
  | nil => intro n; rfl
  | cons ex rest ih => intro n; simp [renumberFrom, ih]

/-- C10: every core transformation is a total function of its finite
input, with single-pass size bounds: at most one description per
paragraph, one output object per input object, and exactly seven fields
per GRP entry. -/
theorem transformations_total :
    (∀ ps : List String, ∃ r, extract_descriptions ps = r ∧ r.length ≤ ps.length) ∧
    (∀ (ps : List String) (q u : String), ∃ t, derive_title ps q u = t) ∧
    (∀ (rules : Rules) (qt p : String), ∃ s, generate_feedback rules qt p = s) ∧
    (∀ exs : List (List (String × PyVal)),
      ∃ r, renumber_uids exs = r ∧ r.length = exs.length) ∧
    (∀ (listing : String → Option (List String)) (rules : Rules) (ex : TrainExample),
      ∃ e, build_entry listing rules ex = e ∧ e.length = 7) := by
  refine ⟨?_, ?_, ?_, ?_, ?_⟩
  · intro ps
    refine ⟨extract_descriptions ps, rfl, ?_⟩
    have h1 := buildDescs_length_le ps (markerStarts ps) []
    have h2 := markerStartsFrom_length_le ps 0
    simp only [extract_descriptions, markerStarts, List.length_nil] at h1 ⊢
    omega
  · intro ps q u; exact ⟨_, rfl⟩
  · intro rules qt p; exact ⟨_, rfl⟩
  · intro exs; exact ⟨_, rfl, renumberFrom_length exs 1⟩
  · intro listing rules ex; exact ⟨_, rfl, rfl⟩

theorem charsPrefix_iff : ∀ (p l : List Char), charsPrefix p l = true ↔ ∃ t, l = p ++ t := by
  intro p
  induction p with
  | nil =>
    intro l
    simp [charsPrefix]
  | cons a as ih =>
    intro l
    cases l with
    | nil => simp [charsPrefix]
    | cons b bs =>
      simp only [charsPrefix, Bool.and_eq_true, beq_iff_eq, ih bs, List.cons_append]
      constructor
      · rintro ⟨rfl, t, rfl⟩
        exact ⟨t, rfl⟩
      · rintro ⟨t, ht⟩
        injection ht with h1 h2
        exact ⟨h1.symm, t, h2⟩

theorem tableTitlePara_false_of_skip (para : String)
    (h : (decide (pyStrip para = "") || pyStartsWith (pyStrip para) "##") = true) :
    tableTitlePara para = false := by
  have hfalse : pyStartsWith (pyToLower (pyStrip para)) "table " = false := by
    rcases Bool.or_eq_true_iff.mp h with hempty | hpre
    · have he : pyStrip para = "" := of_decide_eq_true hempty
      rw [he]
      rfl
    · rcases (charsPrefix_iff "##".data (pyStrip para).data).mp hpre with ⟨t, ht⟩
      show charsPrefix ("table ".data) ((pyStrip para).data.map Char.toLower) = false
      rw [ht]
      rfl
  simp [tableTitlePara, hfalse]

theorem deriveLoop_spec (question uid : String) :
    ∀ (ps : List String) (fne : String),
      deriveLoop question uid ps fne
        = match ps.find? tableTitlePara with
          | some para => pyStrip para
          | none =>
            if fne = "" then
              match ps.find? titleCandidatePara with
              | some para =>
                String.intercalate " " ((pySplitWs (pyStrip para)).take 15)
              | none => if question = "" then "Task " ++ uid else question
            else String.intercalate " " ((pySplitWs fne).take 15) := by
  intro ps
  induction ps with
  | nil => intro fne; rfl
  | cons para rest ih =>
    intro fne
    by_cases hskip : (decide (pyStrip para = "") || pyStartsWith (pyStrip para) "##") = true
    · have htp : tableTitlePara para = false := tableTitlePara_false_of_skip para hskip
      have hcand : titleCandidatePara para = false := by
        simp only [titleCandidatePara, hskip, Bool.not_true]
      rw [List.find?_cons_of_neg _ (by simp [htp]),
        List.find?_cons_of_neg _ (by simp [hcand])]
      simp only [deriveLoop]
      rw [if_pos hskip]
      exact ih fne
    · have hskipf : (decide (pyStrip para = "") || pyStartsWith (pyStrip para) "##") = false :=
        Bool.eq_false_iff.mpr hskip
      have hne : ¬pyStrip para = "" := by
        have h1 := (Bool.or_eq_false_iff.mp hskipf).1
        exact of_decide_eq_false h1
      have hcand : titleCandidatePara para = true := by
        simp [titleCandidatePara, hskipf]
      by_cases htab : tableTitlePara para = true
      · simp only [deriveLoop]
        rw [if_neg hskip]
        have htab' : (pyStartsWith (pyToLower (pyStrip para)) "table " &&
            !strContains (pyToLower (pyStrip para)) "table of contents") = true := htab
        rw [if_pos htab', List.find?_cons_of_pos _ htab]
      · have htabf : tableTitlePara para = false := Bool.eq_false_iff.mpr htab
        simp only [deriveLoop]
        rw [if_neg hskip]
        have htab' : ¬((pyStartsWith (pyToLower (pyStrip para)) "table " &&
            !strContains (pyToLower (pyStrip para)) "table of contents") = true) := htab
        rw [if_neg htab', List.find?_cons_of_neg _ (by simp [htabf]),
          List.find?_cons_of_pos _ hcand]
        by_cases hfne : fne = ""
        · rw [if_pos hfne, if_pos hfne, ih (pyStrip para)]
          cases h : rest.find? tableTitlePara with
          | some p => rfl
          | none =>
            simp only
            rw [if_neg hne]
        · rw [if_neg hfne, if_neg hfne, ih fne]
          cases h : rest.find? tableTitlePara with
          | some p => rfl
          | none =>
            simp only
            rw [if_neg hfne]

/-- C7 counterexample: on a paragraph with leading whitespace whose
stripped text starts with `table `, `derive_title` returns the stripped
text, not the paragraph itself as the claim states. -/
theorem derive_title_c7_counterexample :
    (["  Table 1 shows assets"].find? tableTitlePara = some "  Table 1 shows assets") ∧
    derive_title ["  Table 1 shows assets"] "what?" "3" = "Table 1 shows assets" ∧
    derive_title ["  Table 1 shows assets"] "what?" "3" ≠ "  Table 1 shows assets" := by
  refine ⟨rfl, rfl, by decide⟩

/-- C7 (amended): `derive_title` returns, untruncated, the stripped text
of the first paragraph whose stripped text starts case-insensitively with
`table ` and does not contain `table of contents`; otherwise the first 15
whitespace-separated words of the first paragraph that is non-empty after
stripping and does not start with `##`; otherwise the question, or
`Task <uid>` when the question is empty. -/
theorem derive_title_spec (paragraphs : List String) (question uid : String) :
    derive_title paragraphs question uid
      = match paragraphs.find? tableTitlePara with
        | some para => pyStrip para
        | none =>
          match paragraphs.find? titleCandidatePara with
          | some para => String.intercalate " " ((pySplitWs (pyStrip para)).take 15)
          | none => if question = "" then "Task " ++ uid else question := by
  unfold derive_title
  rw [deriveLoop_spec question uid paragraphs ""]
  cases h : paragraphs.find? tableTitlePara with
  | some p => rfl
  | none => simp

theorem pyEnum_append {α : Type} (l1 l2 : List α) :
    ∀ n, pyEnum n (l1 ++ l2) = pyEnum n l1 ++ pyEnum (n + l1.length) l2 := by
  induction l1 with
  | nil => intro n; simp [pyEnum]
  | cons a as ih =>
    intro n
    simp only [List.cons_append, pyEnum, List.length_cons, List.append_eq, ih (n + 1)]
    have h : n + 1 + as.length = n + (as.length + 1) := by omega
    rw [h]

theorem exportLoop_append (uid : String) (rd : String → Except PyExc (List Df))
    (l1 l2 : List (Nat × String)) :
    exportLoop uid rd (l1 ++ l2)
      = combineResults (exportLoop uid rd l1) (exportLoop uid rd l2) := by
  induction l1 with
  | nil => simp [exportLoop, combineResults]
  | cons e l1 ih =>
    obtain ⟨idx, html⟩ := e
    simp only [List.cons_append, exportLoop]
    cases h : rd html with
    | error ex =>
      cases ex with
      | valueError => exact ih
      | otherError => simp [combineResults]
    | ok dfs =>
      show (⟨dfsFiles uid idx dfs ++ (exportLoop uid rd (l1 ++ l2)).written,
          (exportLoop uid rd (l1 ++ l2)).exc⟩ : ExportResult)
        = combineResults
            ⟨dfsFiles uid idx dfs ++ (exportLoop uid rd l1).written,
              (exportLoop uid rd l1).exc⟩
            (exportLoop uid rd l2)
      rw [ih]
      cases hexc : (exportLoop uid rd l1).exc <;>
        simp [combineResults, hexc, List.append_assoc]

theorem combineResults_written (a b : ExportResult) (f : XlsxFile)
    (hf : f ∈ (combineResults a b).written) : f ∈ a.written ∨ f ∈ b.written := by
  unfold combineResults at hf
  by_cases hexc : a.exc.isSome = true
  · rw [if_pos hexc] at hf
    exact Or.inl hf
  · rw [if_neg hexc] at hf
    simpa using List.mem_append.mp hf

theorem exportLoop_written_mem (uid : String) (rd : String → Except PyExc (List Df)) :
    ∀ (l : List (Nat × String)) (f : XlsxFile), f ∈ (exportLoop uid rd l).written →
      f.uid = uid ∧ f.idx ∈ l.map Prod.fst := by
  intro l
  induction l with
  | nil =>
    intro f hf
    simp [exportLoop] at hf
  | cons e rest ih =>
    obtain ⟨idx, html⟩ := e
    intro f hf
    simp only [exportLoop] at hf
    cases hrd : rd html with
    | error ex =>
      rw [hrd] at hf
      cases ex with
      | valueError =>
        rcases ih f hf with ⟨h1, h2⟩
        exact ⟨h1, by simp [h2]⟩
      | otherError => simp at hf
    | ok dfs =>
      rw [hrd] at hf
      rcases List.mem_append.mp hf with hl | hr
      · rcases List.mem_map.mp hl with ⟨p, _, hp⟩
        by_cases hlen : dfs.length = 1
        · rw [if_pos hlen] at hp
          rw [← hp]
          simp
        · rw [if_neg hlen] at hp
          rw [← hp]
          simp
      · rcases ih f hr with ⟨h1, h2⟩
        exact ⟨h1, by simp [h2]⟩

theorem pyEnum_fst_bounds {α : Type} :
    ∀ (l : List α) (n x : Nat), x ∈ (pyEnum n l).map Prod.fst →
      n ≤ x ∧ x < n + l.length := by
  intro l
  induction l with
  | nil =>
    intro n x hx
    simp [pyEnum] at hx
  | cons a as ih =>
    intro n x hx
    simp only [pyEnum, List.map_cons, List.mem_cons] at hx
    rcases hx with rfl | hx
    · simp
    · rcases ih (n + 1) x hx with ⟨h1, h2⟩
      constructor <;> [omega; (simp only [List.length_cons]; omega)]

theorem dfsFilesD_dropDesc (uid : String) (idx : Nat) (dfs : List Df) (desc : String) :
    (dfsFilesD uid idx dfs desc).map dropDesc = dfsFiles uid idx dfs := by
  unfold dfsFilesD dfsFiles
  rw [List.map_map]
  refine List.map_congr_left ?_
  intro p _
  by_cases h : dfs.length = 1 <;> simp [dropDesc, h]

theorem exportLoopD_drop (uid : String) (rd : String → Except PyExc (List Df))
    (dm : List (Nat × String)) :
    ∀ l, (exportLoopD uid rd dm l).written.map dropDesc
        = (exportLoop uid rd l).written ∧
      (exportLoopD uid rd dm l).exc = (exportLoop uid rd l).exc := by
  intro l
  induction l with
  | nil => exact ⟨rfl, rfl⟩
  | cons e rest ih =>
    obtain ⟨idx, html⟩ := e
    simp only [exportLoopD, exportLoop]
    cases hrd : rd html with
    | error ex =>
      cases ex with
      | valueError => exact ih
      | otherError => exact ⟨rfl, rfl⟩
    | ok dfs =>
      refine ⟨?_, ih.2⟩
      rw [List.map_append, dfsFilesD_dropDesc, ih.1]

theorem pyEnum_map_comp {α β : Type} (g : Nat → β) :
    ∀ (l : List α) (n : Nat),
      (pyEnum n l).map (fun p => g p.1)
        = (List.range l.length).map (fun i => g (n + i)) := by
  intro l
  induction l with
  | nil => intro n; simp [pyEnum]
  | cons a as ih =>
    intro n
    simp only [pyEnum, List.map_cons, List.length_cons, List.range_succ_eq_map,
      List.map_map]
    congr 1
    rw [ih (n + 1)]
    refine List.map_congr_left ?_
    intro i _
    simp only [Function.comp_apply, Nat.succ_eq_add_one]
    have h : n + 1 + i = n + (i + 1) := by omega
    rw [h]

theorem dfsFiles_mem (uid : String) (idx : Nat) (dfs : List Df) (f : XlsxFile)
    (hf : f ∈ dfsFiles uid idx dfs) : f.uid = uid ∧ f.idx = idx := by
  rcases List.mem_map.mp hf with ⟨p, _, hp⟩
  by_cases h : dfs.length = 1
  · rw [if_pos h] at hp
    rw [← hp]
    exact ⟨rfl, rfl⟩
  · rw [if_neg h] at hp
    rw [← hp]
    exact ⟨rfl, rfl⟩

theorem dfsFiles_eq (uid : String) (idx : Nat) (dfs : List Df) :
    dfsFiles uid idx dfs
      = if dfs.length = 1 then [⟨uid, idx, none⟩]
        else (List.range dfs.length).map (fun sub => ⟨uid, idx, some sub⟩) := by
  by_cases h : dfs.length = 1
  · rcases List.length_eq_one.mp h with ⟨d, rfl⟩
    simp [dfsFiles, pyEnum]
  · rw [if_neg h]
    unfold dfsFiles
    have hfun : (fun (p : Nat × Df) =>
        if dfs.length = 1 then (⟨uid, idx, none⟩ : XlsxFile) else ⟨uid, idx, some p.1⟩)
        = fun p => (⟨uid, idx, some p.1⟩ : XlsxFile) := by
      funext p
      rw [if_neg h]
    rw [hfun]
    refine (pyEnum_map_comp (fun i => (⟨uid, idx, some i⟩ : XlsxFile)) dfs 0).trans ?_
    refine List.map_congr_left ?_
    intro i _
    rw [Nat.zero_add]

theorem enumSplit (pre post : List String) (html : String) :
    pyEnum 0 (pre ++ html :: post)
      = pyEnum 0 pre ++ (pre.length, html) :: pyEnum (pre.length + 1) post := by
  rw [pyEnum_append]
  simp [pyEnum]

/-- C2: in both conversion scripts (the plain one and the
with-descriptions one, which write the same files and abort alike), a
`ValueError` from parsing the table at an index writes no file for that
index and leaves the processing of the surrounding tables unchanged,
while any other exception propagates, aborting the run with only the
files written before it. -/
theorem export_tables_error_handling (uid html : String)
    (rd : String → Except PyExc (List Df)) (pre post paragraphs : List String) :
    ((export_tables_desc uid (pre ++ html :: post) paragraphs rd).written.map dropDesc
        = (export_tables uid (pre ++ html :: post) rd).written ∧
      (export_tables_desc uid (pre ++ html :: post) paragraphs rd).exc
        = (export_tables uid (pre ++ html :: post) rd).exc) ∧
    (rd html = Except.error PyExc.valueError →
      export_tables uid (pre ++ html :: post) rd
        = combineResults (exportLoop uid rd (pyEnum 0 pre))
            (exportLoop uid rd (pyEnum (pre.length + 1) post)) ∧
      ∀ f ∈ (export_tables uid (pre ++ html :: post) rd).written,
        f.idx ≠ pre.length) ∧
    (rd html = Except.error PyExc.otherError →
      (exportLoop uid rd (pyEnum 0 pre)).exc = none →
      export_tables uid (pre ++ html :: post) rd
        = ⟨(exportLoop uid rd (pyEnum 0 pre)).written, some PyExc.otherError⟩) := by
  refine ⟨⟨(exportLoopD_drop uid rd _ _).1, (exportLoopD_drop uid rd _ _).2⟩, ?_, ?_⟩
  · intro hval
    have hrun : export_tables uid (pre ++ html :: post) rd
        = combineResults (exportLoop uid rd (pyEnum 0 pre))
            (exportLoop uid rd (pyEnum (pre.length + 1) post)) := by
      show exportLoop uid rd (pyEnum 0 (pre ++ html :: post)) = _
      rw [enumSplit, exportLoop_append]
      have hmid : exportLoop uid rd ((pre.length, html) :: pyEnum (pre.length + 1) post)
          = exportLoop uid rd (pyEnum (pre.length + 1) post) := by
        simp only [exportLoop, hval]
      rw [hmid]
    refine ⟨hrun, ?_⟩
    intro f hf
    rw [hrun] at hf
    rcases combineResults_written _ _ f hf with h1 | h2
    · have hb := pyEnum_fst_bounds pre 0 f.idx (exportLoop_written_mem uid rd _ f h1).2
      omega
    · have hb := pyEnum_fst_bounds post (pre.length + 1) f.idx
        (exportLoop_written_mem uid rd _ f h2).2
      omega
  · intro hoth hpre
    show exportLoop uid rd (pyEnum 0 (pre ++ html :: post)) = _
    rw [enumSplit, exportLoop_append]
    have hmid : exportLoop uid rd ((pre.length, html) :: pyEnum (pre.length + 1) post)
        = ⟨[], some PyExc.otherError⟩ := by
      simp only [exportLoop, hoth]
    rw [hmid]
    unfold combineResults
    rw [if_neg (by simp [hpre])]
    simp

/-- Witness for C2 on a concrete parser: table "V" raises `ValueError`
and is skipped, table "E" raises another exception and aborts. -/
theorem export_tables_error_handling_witness :
    ((fun h => if h = "V" then Except.error PyExc.valueError
        else if h = "E" then Except.error PyExc.otherError
        else Except.ok [[["c"]]]) "V" : Except PyExc (List Df))
      = Except.error PyExc.valueError ∧
    export_tables "u" (["g"] ++ "V" :: ["g2"])
        (fun h => if h = "V" then Except.error PyExc.valueError
          else if h = "E" then Except.error PyExc.otherError
          else Except.ok [[["c"]]])
      = combineResults
          (exportLoop "u"
            (fun h => if h = "V" then Except.error PyExc.valueError
              else if h = "E" then Except.error PyExc.otherError
              else Except.ok [[["c"]]]) (pyEnum 0 ["g"]))
          (exportLoop "u"
            (fun h => if h = "V" then Except.error PyExc.valueError
              else if h = "E" then Except.error PyExc.otherError
              else Except.ok [[["c"]]]) (pyEnum (List.length ["g"] + 1) ["g2"])) :=
  ⟨rfl,
    ((export_tables_error_handling "u" "V"
      (fun h => if h = "V" then Except.error PyExc.valueError
        else if h = "E" then Except.error PyExc.otherError
        else Except.ok [[["c"]]]) ["g"] ["g2"] []).2.1 rfl).1⟩

/-- C4: every file an export run writes lands in the `<out>/<uid>/`
folder, and the table whose HTML parses to `dfs` at index `idx`
contributes exactly `table{idx}.xlsx` when `dfs` is a single dataframe
and exactly one `table{idx}_{sub}.xlsx` per sub-dataframe otherwise; the
with-descriptions script writes files with the same names. -/
theorem export_tables_files (out uid html : String)
    (rd : String → Except PyExc (List Df)) (pre post paragraphs : List String)
    (dfs : List Df) (hok : rd html = Except.ok dfs)
    (hpre : (exportLoop uid rd (pyEnum 0 pre)).exc = none) :
    (∀ f ∈ (export_tables uid (pre ++ html :: post) rd).written,
      f.uid = uid ∧ ∃ rest, xlsxPath out f = out ++ "/" ++ uid ++ "/" ++ rest) ∧
    (export_tables uid (pre ++ html :: post) rd).written.filter
        (fun f => decide (f.idx = pre.length))
      = dfsFiles uid pre.length dfs ∧
    dfsFiles uid pre.length dfs
      = (if dfs.length = 1 then [⟨uid, pre.length, none⟩]
         else (List.range dfs.length).map (fun sub => ⟨uid, pre.length, some sub⟩)) ∧
    (export_tables_desc uid (pre ++ html :: post) paragraphs rd).written.map dropDesc
      = (export_tables uid (pre ++ html :: post) rd).written := by
  have hrun : export_tables uid (pre ++ html :: post) rd
      = ⟨(exportLoop uid rd (pyEnum 0 pre)).written ++
          (dfsFiles uid pre.length dfs ++
            (exportLoop uid rd (pyEnum (pre.length + 1) post)).written),
        (exportLoop uid rd (pyEnum (pre.length + 1) post)).exc⟩ := by
    show exportLoop uid rd (pyEnum 0 (pre ++ html :: post)) = _
    rw [enumSplit, exportLoop_append]
    have hmid : exportLoop uid rd ((pre.length, html) :: pyEnum (pre.length + 1) post)
        = ⟨dfsFiles uid pre.length dfs ++
            (exportLoop uid rd (pyEnum (pre.length + 1) post)).written,
          (exportLoop uid rd (pyEnum (pre.length + 1) post)).exc⟩ := by
      simp only [exportLoop, hok]
    rw [hmid]
    unfold combineResults
    rw [if_neg (by simp [hpre])]
  refine ⟨?_, ?_, dfsFiles_eq uid pre.length dfs, (exportLoopD_drop uid rd _ _).1⟩
  · intro f hf
    rw [hrun] at hf
    have huidf : f.uid = uid := by
      rcases List.mem_append.mp hf with h1 | h12
      · exact (exportLoop_written_mem uid rd _ f h1).1
      · rcases List.mem_append.mp h12 with h2 | h3
        · exact (dfsFiles_mem uid pre.length dfs f h2).1
        · exact (exportLoop_written_mem uid rd _ f h3).1
    refine ⟨huidf, xlsxName f, ?_⟩
    rw [xlsxPath, huidf]
  · rw [hrun]
    simp only [List.filter_append]
    have h1 : (exportLoop uid rd (pyEnum 0 pre)).written.filter
        (fun f => decide (f.idx = pre.length)) = [] := by
      rw [List.filter_eq_nil_iff]
      intro f hfm
      have hb := pyEnum_fst_bounds pre 0 f.idx (exportLoop_written_mem uid rd _ f hfm).2
      simp only [decide_eq_true_eq]
      omega
    have h2 : (dfsFiles uid pre.length dfs).filter
        (fun f => decide (f.idx = pre.length)) = dfsFiles uid pre.length dfs := by
      rw [List.filter_eq_self]
      intro f hfm
      simp [(dfsFiles_mem uid pre.length dfs f hfm).2]
    have h3 : (exportLoop uid rd (pyEnum (pre.length + 1) post)).written.filter
        (fun f => decide (f.idx = pre.length)) = [] := by
      rw [List.filter_eq_nil_iff]
      intro f hfm
      have hb := pyEnum_fst_bounds post (pre.length + 1) f.idx
        (exportLoop_written_mem uid rd _ f hfm).2
      simp only [decide_eq_true_eq]
      omega
    rw [h1, h2, h3]
    simp

/-- Witness for C4: a three-table example whose middle table parses into
two dataframes, yielding `table1_0.xlsx` and `table1_1.xlsx`. -/
theorem export_tables_files_witness :
    ((fun _ => (Except.ok [[["a"]], [["b"]]] : Except PyExc (List Df))) "h"
        = Except.ok [[["a"]], [["b"]]]) ∧
    (exportLoop "u" (fun _ => Except.ok [[["a"]], [["b"]]]) (pyEnum 0 ["g"])).exc
        = none ∧
    (export_tables "u" (["g"] ++ "h" :: ["g2"])
        (fun _ => Except.ok [[["a"]], [["b"]]])).written.filter
        (fun f => decide (f.idx = List.length ["g"]))
      = dfsFiles "u" (List.length ["g"]) [[["a"]], [["b"]]] :=
  ⟨rfl, rfl,
    (export_tables_files "o" "u" "h" (fun _ => Except.ok [[["a"]], [["b"]]])
      ["g"] ["g2"] [] [[["a"]], [["b"]]] rfl rfl).2.1⟩

theorem buildDescs_lookup (ps : List String) :
    ∀ (starts : List (Nat × Nat)) (d : List (Nat × String)) (k : Nat),
      dictLookup (buildDescs ps starts d) k
        = (lastDesc ps starts k).or (dictLookup d k) := by
  intro starts
  induction starts with
  | nil => intro d k; simp [buildDescs, lastDesc]
  | cons e rest ih =>
    obtain ⟨tableIdx, startPos⟩ := e
    intro d k
    simp only [buildDescs, lastDesc]
    rw [ih]
    cases hl : lastDesc ps rest k with
    | some t => simp
    | none =>
      simp only [Option.none_or, dictLookup_dictInsert]
      by_cases hk : tableIdx = k
      · subst hk
        simp
      · rw [if_neg (fun h => hk h.symm), if_neg hk, Option.none_or]

theorem lastDesc_eq_none (ps : List String) :
    ∀ (starts : List (Nat × Nat)) (k : Nat),
      lastDesc ps starts k = none ↔ ∀ q, (k, q) ∉ starts := by
  intro starts
  induction starts with
  | nil => intro k; simp [lastDesc]
  | cons e rest ih =>
    obtain ⟨j, q0⟩ := e
    intro k
    simp only [lastDesc]
    constructor
    · intro h
      cases hl : lastDesc ps rest k with
      | some t => rw [hl] at h; exact absurd h (by simp)
      | none =>
        rw [hl] at h
        by_cases hj : j = k
        · rw [if_pos hj] at h
          exact absurd h (by simp)
        · intro q hq
          rcases List.mem_cons.mp hq with heq | hmem
          · injection heq with h1 h2
            exact hj h1.symm
          · exact (ih k).mp hl q hmem
    · intro h
      have hrest : lastDesc ps rest k = none :=
        (ih k).mpr (fun q hq => h q (List.mem_cons_of_mem _ hq))
      rw [hrest]
      by_cases hj : j = k
      · subst hj
        exact absurd (List.mem_cons_self _ _) (h q0)
      · rw [if_neg hj]

theorem markerStartsFrom_pos_ge (ps : List String) :
    ∀ (n : Nat) (e : Nat × Nat), e ∈ markerStartsFrom n ps → n ≤ e.2 := by
  induction ps with
  | nil =>
    intro n e h
    simp [markerStartsFrom] at h
  | cons para rest ih =>
    intro n e h
    simp only [markerStartsFrom] at h
    cases hs : searchMarker para with
    | some j =>
      rw [hs] at h
      rcases List.mem_cons.mp h with rfl | hm
      · simp
      · have := ih (n + 1) e hm
        omega
    | none =>
      rw [hs] at h
      have := ih (n + 1) e h
      omega

theorem markerStartsFrom_pairwise (ps : List String) :
    ∀ n, (markerStartsFrom n ps).Pairwise (fun a b => a.2 < b.2) := by
  induction ps with
  | nil => intro n; simp [markerStartsFrom]
  | cons para rest ih =>
    intro n
    simp only [markerStartsFrom]
    cases hs : searchMarker para with
    | some j =>
      refine List.Pairwise.cons ?_ (ih (n + 1))
      intro e he
      have := markerStartsFrom_pos_ge rest (n + 1) e he
      simp only
      omega
    | none => exact ih (n + 1)

theorem nextMarkerPos_eq (ps : List String) (l1 l2 : List (Nat × Nat)) (j q : Nat)
    (hsplit : markerStarts ps = l1 ++ (j, q) :: l2) :
    nextMarkerPos ps q
      = (match l2.head? with
          | some e => e.2
          | none => ps.length) := by
  have hpw : (markerStarts ps).Pairwise (fun a b => a.2 < b.2) :=
    markerStartsFrom_pairwise ps 0
  rw [hsplit] at hpw
  rcases List.pairwise_append.mp hpw with ⟨hp1, hp2, hcross⟩
  unfold nextMarkerPos
  rw [hsplit, List.find?_append]
  have hfind1 : l1.find? (fun e => decide (q < e.2)) = none := by
    rw [List.find?_eq_none]
    intro x hx
    have hxq : x.2 < q := hcross x hx (j, q) (List.mem_cons_self _ _)
    simp only [decide_eq_true_eq]
    omega
  rw [hfind1, Option.none_or, List.find?_cons_of_neg _ (by simp)]
  rcases List.pairwise_cons.mp hp2 with ⟨hhead, _⟩
  cases hl2 : l2 with
  | nil => simp
  | cons e2 t2 =>
    have hq2 : q < e2.2 := by
      have := hhead e2 (by rw [hl2]; exact List.mem_cons_self _ _)
      exact this
    rw [List.find?_cons_of_pos _ (by simpa using hq2)]
    rfl

theorem lastDesc_some_spec (ps : List String) :
    ∀ (starts l1 : List (Nat × Nat)) (k : Nat) (t : String),
      markerStarts ps = l1 ++ starts →
      lastDesc ps starts k = some t →
      ∃ q, (k, q) ∈ starts ∧
        t = pyStrip (String.intercalate "\n"
          ((ps.take (nextMarkerPos ps q)).drop (q + 1))) := by
  intro starts
  induction starts with
  | nil =>
    intro l1 k t _ h
    simp [lastDesc] at h
  | cons e rest ih =>
    obtain ⟨j, q⟩ := e
    intro l1 k t hsplit h
    simp only [lastDesc] at h
    cases hl : lastDesc ps rest k with
    | some t' =>
      rw [hl] at h
      injection h with h
      subst h
      have hsplit' : markerStarts ps = (l1 ++ [(j, q)]) ++ rest := by
        rw [hsplit]
        simp
      rcases ih (l1 ++ [(j, q)]) k t' hsplit' hl with ⟨q', hq1, hq2⟩
      exact ⟨q', List.mem_cons_of_mem _ hq1, hq2⟩
    | none =>
      rw [hl] at h
      by_cases hj : j = k
      · rw [if_pos hj] at h
        injection h with h
        subst hj
        refine ⟨q, List.mem_cons_self _ _, ?_⟩
        rw [← h, nextMarkerPos_eq ps l1 rest j q hsplit]
      · rw [if_neg hj] at h
        exact absurd h (by simp)

theorem markerStartsFrom_mem (k : Nat) :
    ∀ (ps : List String) (n q : Nat),
      (k, q) ∈ markerStartsFrom n ps ↔
        (n ≤ q ∧ ∃ para, ps[q - n]? = some para ∧ searchMarker para = some k) := by
  intro ps
  induction ps with
  | nil => intro n q; simp [markerStartsFrom]
  | cons para rest ih =>
    intro n q
    simp only [markerStartsFrom]
    cases hs : searchMarker para with
    | some j =>
      simp only [List.mem_cons]
      constructor
      · rintro (heq | hmem)
        · injection heq with h1 h2
          subst h2
          refine ⟨Nat.le_refl _, para, ?_, ?_⟩
          · simp
          · rw [hs, h1]
        · rcases (ih (n + 1) q).mp hmem with ⟨hle, para', hget, hsm⟩
          refine ⟨by omega, para', ?_, hsm⟩
          have hq : q - n = (q - (n + 1)) + 1 := by omega
          rw [hq, List.getElem?_cons_succ]
          exact hget
      · rintro ⟨hle, para', hget, hsm⟩
        by_cases hqn : q = n
        · subst hqn
          left
          rw [Nat.sub_self, List.getElem?_cons_zero] at hget
          injection hget with hget
          subst hget
          rw [hs] at hsm
          injection hsm with hsm
          rw [hsm]
        · right
          refine (ih (n + 1) q).mpr ⟨by omega, para', ?_, hsm⟩
          have hq : q - n = (q - (n + 1)) + 1 := by omega
          rw [hq, List.getElem?_cons_succ] at hget
          exact hget
    | none =>
      rw [ih (n + 1) q]
      constructor
      · rintro ⟨hle, para', hget, hsm⟩
        refine ⟨by omega, para', ?_, hsm⟩
        have hq : q - n = (q - (n + 1)) + 1 := by omega
        rw [hq, List.getElem?_cons_succ]
        exact hget
      · rintro ⟨hle, para', hget, hsm⟩
        by_cases hqn : q = n
        · subst hqn
          rw [Nat.sub_self, List.getElem?_cons_zero] at hget
          injection hget with hget
          subst hget
          rw [hs] at hsm
          exact absurd hsm (by simp)
        · refine ⟨by omega, para', ?_, hsm⟩
          have hq : q - n = (q - (n + 1)) + 1 := by omega
          rw [hq, List.getElem?_cons_succ] at hget
          exact hget

/-- C1: the mapping `extract_descriptions` returns contains exactly the
indices captured by marker paragraphs; the value stored for an index is
the newline-joined, stripped text of the paragraphs lying strictly
between a marker carrying that index and the next marker in scan order
(or the end of the list); and a pair `(k, q)` is a marker start exactly
when the paragraph at position `q` matches `## Table k ##`. -/
theorem extract_descriptions_spec (paragraphs : List String) (k : Nat) :
    (dictLookup (extract_descriptions paragraphs) k = none ↔
      ∀ q, (k, q) ∉ markerStarts paragraphs) ∧
    (∀ t, dictLookup (extract_descriptions paragraphs) k = some t →
      ∃ q, (k, q) ∈ markerStarts paragraphs ∧
        t = pyStrip (String.intercalate "\n"
          ((paragraphs.take (nextMarkerPos paragraphs q)).drop (q + 1)))) ∧
    (∀ q, (k, q) ∈ markerStarts paragraphs ↔
      ∃ para, paragraphs[q]? = some para ∧ searchMarker para = some k) := by
  have hlk : dictLookup (extract_descriptions paragraphs) k
      = lastDesc paragraphs (markerStarts paragraphs) k := by
    rw [extract_descriptions, buildDescs_lookup]
    rw [dictLookup_nil, Option.or_none]
  refine ⟨?_, ?_, ?_⟩
  · rw [hlk]
    exact lastDesc_eq_none paragraphs (markerStarts paragraphs) k
  · intro t ht
    rw [hlk] at ht
    exact lastDesc_some_spec paragraphs (markerStarts paragraphs) [] k t rfl ht
  · intro q
    have h := markerStartsFrom_mem k paragraphs 0 q
    simpa using h

/-- Witness for C1: index 0's description is the two paragraphs between
its marker and the marker of table 2. -/
theorem extract_descriptions_spec_witness :
    dictLookup (extract_descriptions
        ["intro", "## Table 0 ##", "alpha", "beta", "## Table 2 ##", "gamma"]) 0
      = some "alpha\nbeta" ∧
    ∃ q, (0, q) ∈ markerStarts
        ["intro", "## Table 0 ##", "alpha", "beta", "## Table 2 ##", "gamma"] ∧
      "alpha\nbeta" = pyStrip (String.intercalate "\n"
        ((["intro", "## Table 0 ##", "alpha", "beta", "## Table 2 ##", "gamma"].take
          (nextMarkerPos
            ["intro", "## Table 0 ##", "alpha", "beta", "## Table 2 ##", "gamma"]
            q)).drop (q + 1))) :=
  ⟨rfl,
    (extract_descriptions_spec
      ["intro", "## Table 0 ##", "alpha", "beta", "## Table 2 ##", "gamma"] 0).2.1
      "alpha\nbeta" rfl⟩

example : searchMarker "## Table 0 ##" = some 0 := by decide
example : searchMarker "x ##Table 12## y" = some 12 := by decide
example : searchMarker "## table 1 ##" = none := by decide
example : searchMarker "## Table ##" = none := by decide
example :
    extract_descriptions ["## Table 0 ##", "alpha", "beta", "## Table 2 ##", "gamma"]
      = [(0, "alpha\nbeta"), (2, "gamma")] := by decide
